import Mathlib

/-!
Shallow embedding of the FactSetAPI data-access layer.

Each Python module is embedded as a Lean namespace:
* `GlobalPrices`   — `global_prices.py` (`PriceDataLoader`): cumulative
  corporate-action adjustment factors and column adjustment;
* `Fundamentals`   — `fundamentals.py` (`FundamentalDataLoader`): field-to-table
  resolution with priority lists and fallback, and the fundamentals loader;
* `Estimates`      — `estimates.py` (`EstimatesLoader`): per-table fetch loop and
  null-row filling of requested-but-absent items;
* `Metadata`       — `metadata.py` (`MetaDataJoiner.join_on_calendar`);
* `Output`         — `output.py` (`PanelOutput`).

Dates are embedded as `Int` (day numbers), numeric values as `ℚ`, the opaque
database connection as an explicit fetch function returning `Except`.
-/

namespace GlobalPrices

/-- A raw price observation row, after `_prepare_pl_dfs` has joined the ISIN map:
`(ISIN, price_date)` plus field values are carried separately where needed. -/
structure PriceRow where
  isin : String
  price_date : Int
deriving DecidableEq, Repr

/-- A corporate-action adjustment event row of `fgp_ca_adj_factors`:
`(ISIN, effective_date, div_spl_spin_adj_factor)`; the factor may be null. -/
structure AdjRow where
  isin : String
  effective_date : Int
  factor : Option ℚ
deriving DecidableEq, Repr

/-- Body of `for factor in future_factors: if factor is not None: cum_factor *= factor`. -/
def apply_factor (acc : ℚ) (f : Option ℚ) : ℚ :=
  match f with
  | some factor => acc * factor
  | none => acc

/-- The inner loop of `PriceDataLoader.compute_adjustment_factors`: for one price
date, keep the factors of events strictly after it and multiply the non-null
ones onto 1.0. -/
def cum_factor (events : List AdjRow) (price_date : Int) : ℚ :=
  let future_factors := (events.filter (fun e => price_date < e.effective_date)).map (·.factor)
  future_factors.foldl apply_factor 1

/-- `PriceDataLoader.compute_adjustment_factors`: per distinct ISIN of the price
frame, attach a cumulative factor to each (date-sorted) price row; an ISIN with
no adjustment events gets the constant factor 1.0. -/
def compute_adjustment_factors (pl_prices : List PriceRow) (pl_adj : List AdjRow) :
    List (PriceRow × ℚ) :=
  ((pl_prices.map (·.isin)).dedup).flatMap (fun isin =>
    let prices_isin :=
      (pl_prices.filter (fun p => p.isin = isin)).insertionSort
        (fun a b => a.price_date ≤ b.price_date)
    let adj_isin :=
      (pl_adj.filter (fun a => a.isin = isin)).insertionSort
        (fun a b => a.effective_date ≤ b.effective_date)
    if adj_isin = [] then
      prices_isin.map (fun p => (p, 1))
    else
      prices_isin.map (fun p => (p, cum_factor adj_isin p.price_date)))

/-- Modelled from the spec wording, for comparison with the code: the cumulative
factor for date `d` is the product over all events with `effective_date > d` of
their factor, a null factor counting as 1.0. -/
def spec_cum_factor (events : List AdjRow) (d : Int) : ℚ :=
  ((events.filter (fun e => d < e.effective_date)).map (fun e => e.factor.getD 1)).prod

theorem apply_factor_eq (acc : ℚ) (f : Option ℚ) : apply_factor acc f = acc * f.getD 1 := by
  cases f with
  | none => simp [apply_factor]
  | some q => rfl

theorem foldl_apply_factor (fs : List (Option ℚ)) :
    ∀ acc : ℚ, fs.foldl apply_factor acc = acc * (fs.map (fun f => f.getD 1)).prod := by
  induction fs with
  | nil => intro acc; simp
  | cons f fs ih =>
      intro acc
      simp only [List.foldl_cons, List.map_cons, List.prod_cons]
      rw [ih, apply_factor_eq, mul_assoc]

theorem cum_factor_eq_prod (events : List AdjRow) (d : Int) :
    cum_factor events d = spec_cum_factor events d := by
  unfold cum_factor spec_cum_factor
  rw [foldl_apply_factor, one_mul, List.map_map]
  rfl

theorem cum_factor_of_no_events (d : Int) : cum_factor [] d = 1 := rfl

theorem mem_compute_adjustment_factors (pl_prices : List PriceRow) (pl_adj : List AdjRow)
    (pr : PriceRow × ℚ) (h : pr ∈ compute_adjustment_factors pl_prices pl_adj) :
    pr.2 = cum_factor (pl_adj.filter (fun a => a.isin = pr.1.isin)) pr.1.price_date := by
  unfold compute_adjustment_factors at h
  simp only [List.mem_flatMap] at h
  obtain ⟨isin, _, hmem⟩ := h
  by_cases hadj :
      (pl_adj.filter (fun a => a.isin = isin)).insertionSort
        (fun a b => a.effective_date ≤ b.effective_date) = []
  · rw [if_pos hadj] at hmem
    simp only [List.mem_map] at hmem
    obtain ⟨p, hp, hpr⟩ := hmem
    have hpisin : p.isin = isin := by
      have := (List.perm_insertionSort (fun a b => a.price_date ≤ b.price_date)
        (pl_prices.filter (fun p => p.isin = isin))).mem_iff.mp hp
      exact of_decide_eq_true (List.mem_filter.mp this).2
    have hempty : pl_adj.filter (fun a => a.isin = isin) = [] := by
      have hperm := List.perm_insertionSort (fun a b => a.effective_date ≤ b.effective_date)
        (pl_adj.filter (fun a => a.isin = isin))
      rw [hadj] at hperm
      exact (hperm.symm).eq_nil
    rw [← hpr]
    simp only
    rw [hpisin, hempty]
    rfl
  · rw [if_neg hadj] at hmem
    simp only [List.mem_map] at hmem
    obtain ⟨p, hp, hpr⟩ := hmem
    have hpisin : p.isin = isin := by
      have := (List.perm_insertionSort (fun a b => a.price_date ≤ b.price_date)
        (pl_prices.filter (fun p => p.isin = isin))).mem_iff.mp hp
      exact of_decide_eq_true (List.mem_filter.mp this).2
    rw [← hpr]
    simp only
    rw [hpisin]
    rw [cum_factor_eq_prod, cum_factor_eq_prod]
    unfold spec_cum_factor
    exact List.Perm.prod_eq
      (List.Perm.map _ (List.Perm.filter _ (List.perm_insertionSort _ _)))

theorem one_le_spec_cum_factor (events : List AdjRow) (d : Int)
    (h : ∀ e ∈ events, ∀ f, e.factor = some f → 1 ≤ f) :
    1 ≤ spec_cum_factor events d := by
  unfold spec_cum_factor
  induction events with
  | nil => simp
  | cons e es ih =>
      have hes : ∀ e ∈ es, ∀ f, e.factor = some f → 1 ≤ f :=
        fun x hx => h x (List.mem_cons_of_mem _ hx)
      have hge : (1 : ℚ) ≤ e.factor.getD 1 := by
        cases hf : e.factor with
        | none => simp
        | some f => simpa using h e (List.mem_cons_self _ _) f hf
      rw [List.filter_cons]
      by_cases hd : d < e.effective_date
      · simp only [hd, decide_True, if_true, List.map_cons, List.prod_cons]
        calc (1 : ℚ) = 1 * 1 := by ring
        _ ≤ e.factor.getD 1 * ((es.filter (fun e => d < e.effective_date)).map
              (fun e => e.factor.getD 1)).prod :=
          mul_le_mul hge (ih hes) (by norm_num) (le_trans (by norm_num) hge)
      · simp only [hd, decide_False, if_false]
        exact ih hes

theorem spec_cum_factor_anti (events : List AdjRow) (d1 d2 : Int) (hd : d1 ≤ d2)
    (h : ∀ e ∈ events, ∀ f, e.factor = some f → 1 ≤ f) :
    spec_cum_factor events d2 ≤ spec_cum_factor events d1 := by
  induction events with
  | nil => exact le_refl _
  | cons e es ih =>
      have hes : ∀ e ∈ es, ∀ f, e.factor = some f → 1 ≤ f :=
        fun x hx => h x (List.mem_cons_of_mem _ hx)
      have hge : (1 : ℚ) ≤ e.factor.getD 1 := by
        cases hf : e.factor with
        | none => simp
        | some f => simpa using h e (List.mem_cons_self _ _) f hf
      have h1 : 1 ≤ spec_cum_factor es d1 := one_le_spec_cum_factor es d1 hes
      have h2 : 1 ≤ spec_cum_factor es d2 := one_le_spec_cum_factor es d2 hes
      unfold spec_cum_factor
      rw [List.filter_cons, List.filter_cons]
      by_cases h2d : d2 < e.effective_date
      · have h1d : d1 < e.effective_date := lt_of_le_of_lt hd h2d
        simp only [h2d, h1d, decide_True, if_true, List.map_cons, List.prod_cons]
        exact mul_le_mul_of_nonneg_left (ih hes) (le_trans (by norm_num) hge)
      · by_cases h1d : d1 < e.effective_date
        · simp only [h2d, h1d, decide_True, decide_False, if_true, if_false]
          calc ((es.filter (fun e => d2 < e.effective_date)).map
                  (fun e => e.factor.getD 1)).prod
              ≤ ((es.filter (fun e => d1 < e.effective_date)).map
                  (fun e => e.factor.getD 1)).prod := ih hes
            _ = 1 * ((es.filter (fun e => d1 < e.effective_date)).map
                  (fun e => e.factor.getD 1)).prod := by ring
            _ ≤ e.factor.getD 1 * ((es.filter (fun e => d1 < e.effective_date)).map
                  (fun e => e.factor.getD 1)).prod :=
              mul_le_mul_of_nonneg_right hge (le_trans (by norm_num) h1)
        · simp only [h2d, h1d, decide_False, if_false]
          exact ih hes

/-- Observations and events of the worked scenario of the spec: entity `E1`,
observations on 2021-01-01 (day 0) and 2021-02-01 (day 31), one event on
2021-01-15 (day 14) with factor 0.5. -/
def scenario_prices : List PriceRow := [⟨"E1", 0⟩, ⟨"E1", 31⟩]

/-- The single adjustment event of the worked scenario. -/
def scenario_adj : List AdjRow := [⟨"E1", 14, some (1/2)⟩]

/-- `PriceDataLoader.ADJUSTABLE_COLUMNS`. -/
def ADJUSTABLE_COLUMNS : List String :=
  ["price", "price_open", "price_high", "price_low", "volume", "turnover", "vwap"]

/-- `PriceDataLoader._split_fields`. -/
def split_fields (fields : List String) : List String × List String :=
  (fields.filter (fun c => c ∈ ADJUSTABLE_COLUMNS),
   fields.filter (fun c => c ∉ ADJUSTABLE_COLUMNS))

/-- The columns selected at the end of `PriceDataLoader.get_prices`: base columns,
then non-adjustable and adjustable resolved fields, and — only when `adjust` is
true and some adjustable field was resolved — the derived `_adj` columns. -/
def get_prices_result_columns (resolved_fields : List String) (adjust : Bool) : List String :=
  let adjustable_fields := (split_fields resolved_fields).1
  let non_adjustable_fields := (split_fields resolved_fields).2
  let base := ["price_date", "ISIN"] ++ non_adjustable_fields ++ adjustable_fields
  if adjust = true ∧ adjustable_fields ≠ [] then
    base ++ adjustable_fields.map (fun c => c ++ "_adj")
  else base

/-- The `cum_factor` column attached by `PriceDataLoader.get_prices`: computed by
`compute_adjustment_factors` when `adjust` is true, the constant literal 1.0
otherwise. -/
def get_prices_cum_factors (pl_prices : List PriceRow) (pl_adj : List AdjRow)
    (adjust : Bool) : List (PriceRow × ℚ) :=
  if adjust then compute_adjustment_factors pl_prices pl_adj
  else pl_prices.map (fun p => (p, 1))

/-- `PriceDataLoader.adjust_columns`, row-wise: `vals` are one row's named field
values and `factor` its `cum_factor`; each value column gains a `_adj` companion
equal to the value times the factor. -/
def adjust_columns (vals : List (String × ℚ)) (value_cols : List String) (factor : ℚ) :
    List (String × ℚ) :=
  vals ++ value_cols.map (fun col => (col ++ "_adj", ((vals.lookup col).getD 0) * factor))

theorem scenario_compute_eq :
    compute_adjustment_factors scenario_prices scenario_adj =
      [(⟨"E1", 0⟩, 1/2), (⟨"E1", 31⟩, 1)] := by
  norm_num [compute_adjustment_factors, scenario_prices, scenario_adj, cum_factor,
    apply_factor, List.insertionSort, List.orderedInsert, List.dedup, List.flatMap,
    List.filter, List.dedup_cons_of_not_mem, List.dedup_cons_of_mem]

/-- Observations of a second concrete dataset, used to witness the amended
monotonicity claim: entity `E2`, one reverse-split-style event with factor 2. -/
def rise_prices : List PriceRow := [⟨"E2", 0⟩, ⟨"E2", 31⟩]

/-- The single factor-2 adjustment event of the second dataset. -/
def rise_adj : List AdjRow := [⟨"E2", 14, some 2⟩]

theorem rise_compute_eq :
    compute_adjustment_factors rise_prices rise_adj =
      [(⟨"E2", 0⟩, 2), (⟨"E2", 31⟩, 1)] := by
  norm_num [compute_adjustment_factors, rise_prices, rise_adj, cum_factor,
    apply_factor, List.insertionSort, List.orderedInsert, List.dedup, List.flatMap,
    List.filter, List.dedup_cons_of_not_mem, List.dedup_cons_of_mem]

/-- C1: the factor `compute_adjustment_factors` attaches to every price row is
the product of the factors of that entity's events strictly after the row's
date (null factors count as 1.0); with no events the factor is 1.0; and on the
spec's worked scenario the factors are 0.5 and 1.0. -/
theorem C1_compute_adjustment_factors_spec :
    (∀ (pl_prices : List PriceRow) (pl_adj : List AdjRow) (pr : PriceRow × ℚ),
      pr ∈ compute_adjustment_factors pl_prices pl_adj →
      pr.2 = spec_cum_factor (pl_adj.filter (fun a => a.isin = pr.1.isin)) pr.1.price_date) ∧
    (∀ (pl_prices : List PriceRow) (pl_adj : List AdjRow) (pr : PriceRow × ℚ),
      pr ∈ compute_adjustment_factors pl_prices pl_adj →
      pl_adj.filter (fun a => a.isin = pr.1.isin) = [] →
      pr.2 = 1) ∧
    compute_adjustment_factors scenario_prices scenario_adj =
      [(⟨"E1", 0⟩, 1/2), (⟨"E1", 31⟩, 1)] := by
  refine ⟨?_, ?_, scenario_compute_eq⟩
  · intro pl_prices pl_adj pr h
    rw [mem_compute_adjustment_factors pl_prices pl_adj pr h, cum_factor_eq_prod]
  · intro pl_prices pl_adj pr h hempty
    rw [mem_compute_adjustment_factors pl_prices pl_adj pr h, hempty]
    rfl

theorem C1_compute_adjustment_factors_spec_witness :
    ((⟨"E1", 0⟩, 1/2) : PriceRow × ℚ).2 =
      spec_cum_factor
        (scenario_adj.filter (fun a => a.isin = ((⟨"E1", 0⟩, (1/2 : ℚ)) : PriceRow × ℚ).1.isin))
        ((⟨"E1", 0⟩, (1/2 : ℚ)) : PriceRow × ℚ).1.price_date :=
  C1_compute_adjustment_factors_spec.1 scenario_prices scenario_adj
    ((⟨"E1", 0⟩, 1/2) : PriceRow × ℚ)
    (by rw [scenario_compute_eq]; exact List.mem_cons_self _ _)

/-- C4 counterexample: on the spec's own worked scenario the factor computed for
the earlier date (0.5 on day 0) is strictly smaller than the factor computed for
the later date (1.0 on day 31), so the cumulative factor is not non-decreasing
as the observation date decreases. -/
theorem C4_monotonicity_cex :
    ((⟨"E1", 0⟩, 1/2) : PriceRow × ℚ) ∈
        compute_adjustment_factors scenario_prices scenario_adj ∧
    ((⟨"E1", 31⟩, 1) : PriceRow × ℚ) ∈
        compute_adjustment_factors scenario_prices scenario_adj ∧
    (0 : Int) < 31 ∧ ¬ ((1 : ℚ) ≤ 1/2) := by
  rw [scenario_compute_eq]
  refine ⟨List.mem_cons_self _ _, ?_, by norm_num, by norm_num⟩
  exact List.mem_cons_of_mem _ (List.mem_cons_self _ _)

/-- C4 amended: for a fixed entity, when every non-null event factor is at least
1, the cumulative factor computed by `compute_adjustment_factors` is
non-decreasing as the observation date decreases (without that hypothesis the
spec's own scenario refutes the claim). -/
theorem C4_cum_factor_antitone_amended
    (pl_prices : List PriceRow) (pl_adj : List AdjRow) (pr1 pr2 : PriceRow × ℚ)
    (h1 : pr1 ∈ compute_adjustment_factors pl_prices pl_adj)
    (h2 : pr2 ∈ compute_adjustment_factors pl_prices pl_adj)
    (hisin : pr1.1.isin = pr2.1.isin)
    (hdate : pr1.1.price_date ≤ pr2.1.price_date)
    (hfac : ∀ e ∈ pl_adj, ∀ f, e.factor = some f → 1 ≤ f) :
    pr2.2 ≤ pr1.2 := by
  rw [mem_compute_adjustment_factors pl_prices pl_adj pr1 h1, cum_factor_eq_prod]
  rw [mem_compute_adjustment_factors pl_prices pl_adj pr2 h2, cum_factor_eq_prod]
  rw [← hisin]
  exact spec_cum_factor_anti _ _ _ hdate
    (fun e he => hfac e (List.mem_filter.mp he).1)

theorem C4_cum_factor_antitone_amended_witness :
    ((⟨"E2", 31⟩, 1) : PriceRow × ℚ).2 ≤ ((⟨"E2", 0⟩, 2) : PriceRow × ℚ).2 :=
  C4_cum_factor_antitone_amended rise_prices rise_adj
    ((⟨"E2", 0⟩, 2) : PriceRow × ℚ) ((⟨"E2", 31⟩, 1) : PriceRow × ℚ)
    (by rw [rise_compute_eq]; exact List.mem_cons_self _ _)
    (by rw [rise_compute_eq]; exact List.mem_cons_of_mem _ (List.mem_cons_self _ _))
    rfl (by norm_num)
    (by
      intro e he f hf
      simp only [rise_adj, List.mem_singleton] at he
      subst he
      simp only [Option.some.injEq] at hf
      rw [← hf]
      norm_num)

/-- C5 counterexample: with `adjust=false` the derived `price_adj` column is not
materialized — the returned column set differs from the `adjust=true` one. -/
theorem C5_adj_columns_not_materialized_cex :
    get_prices_result_columns ["price"] true = ["price_date", "ISIN", "price", "price_adj"] ∧
    get_prices_result_columns ["price"] false = ["price_date", "ISIN", "price"] ∧
    "price_adj" ∉ get_prices_result_columns ["price"] false := by decide

/-- C5 amended: with `adjust=false` the cumulative factor is uniformly 1.0, but
no `_adj` columns are materialized: every returned column is a base column or a
raw requested field, and the column interface differs from `adjust=true`
whenever an adjustable field is requested; `adjust_columns` with factor 1.0
materializes adjusted values equal to the raw values. -/
theorem C5_adjust_disabled_amended :
    (∀ (pl_prices : List PriceRow) (pl_adj : List AdjRow),
      get_prices_cum_factors pl_prices pl_adj false = pl_prices.map (fun p => (p, (1 : ℚ)))) ∧
    (∀ (fields : List String) (col : String),
      col ∈ get_prices_result_columns fields false →
      col ∈ ["price_date", "ISIN"] ++ fields) ∧
    (∀ (fields : List String), (split_fields fields).1 ≠ [] →
      get_prices_result_columns fields false ≠ get_prices_result_columns fields true) ∧
    (∀ (vals : List (String × ℚ)) (value_cols : List String),
      adjust_columns vals value_cols 1 =
        vals ++ value_cols.map (fun col => (col ++ "_adj", (vals.lookup col).getD 0))) := by
  refine ⟨?_, ?_, ?_, ?_⟩
  · intro pl_prices pl_adj
    simp [get_prices_cum_factors]
  · intro fields col h
    have hfalse : get_prices_result_columns fields false =
        ["price_date", "ISIN"] ++ (split_fields fields).2 ++ (split_fields fields).1 := by
      simp [get_prices_result_columns]
    rw [hfalse] at h
    simp only [List.mem_append] at h
    rcases h with (hb | hx) | hy
    · exact List.mem_append_left _ hb
    · exact List.mem_append_right _ (List.mem_filter.mp hx).1
    · exact List.mem_append_right _ (List.mem_filter.mp hy).1
  · intro fields hne heq
    have h1 : get_prices_result_columns fields false =
        ["price_date", "ISIN"] ++ (split_fields fields).2 ++ (split_fields fields).1 := by
      simp [get_prices_result_columns]
    have h2 : get_prices_result_columns fields true =
        (["price_date", "ISIN"] ++ (split_fields fields).2 ++ (split_fields fields).1)
          ++ (split_fields fields).1.map (fun c => c ++ "_adj") := by
      simp [get_prices_result_columns, hne]
    rw [h1, h2] at heq
    have hlen := congrArg List.length heq
    simp only [List.length_append, List.length_map] at hlen
    have hzero : (split_fields fields).1.length = 0 := by omega
    exact hne (List.length_eq_zero.mp hzero)
  · intro vals value_cols
    simp [adjust_columns]

theorem C5_adjust_disabled_amended_witness :
    get_prices_result_columns ["price"] false ≠ get_prices_result_columns ["price"] true :=
  C5_adjust_disabled_amended.2.2.1 ["price"] (by decide)

end GlobalPrices

namespace Fundamentals

/-- The opaque table/column catalog behind `FundamentalDataLoader`: the schema's
table list (`_load_all_tables`, in database enumeration order) and each table's
lower-cased column names (`_load_table_columns`). -/
structure Catalog where
  fundamental_tables : List String
  columns : String → List String

/-- Python's `str.lower()` (ASCII), used on fields and on the frequency tag. -/
def str_lower (s : String) : String := ⟨s.data.map Char.toLower⟩

/-- `FundamentalDataLoader.TABLE_PRIORITY_MAP`, looked up with
`.get(frequency, [])` semantics. -/
def TABLE_PRIORITY_MAP (frequency : String) : List String :=
  if frequency = "qf" then
    ["ff_v3.ff_basic_qf", "ff_v3.ff_advanced_qf", "ff_v3.ff_basic_der_qf",
     "ff_v3.ff_advanced_der_qf"]
  else if frequency = "af" then
    ["ff_v3.ff_basic_af", "ff_v3.ff_advanced_af", "ff_v3.ff_basic_der_af",
     "ff_v3.ff_advanced_der_af"]
  else if frequency = "ltm" then
    ["ff_v3.ff_basic_ltm", "ff_v3.ff_advanced_ltm", "ff_v3.ff_basic_der_ltm",
     "ff_v3.ff_advanced_der_ltm"]
  else if frequency = "ytd" then
    ["ff_v3.ff_basic_ytd", "ff_v3.ff_advanced_ytd", "ff_v3.ff_basic_der_ytd",
     "ff_v3.ff_advanced_der_ytd"]
  else if frequency = "saf" then
    ["ff_v3.ff_basic_af", "ff_v3.ff_advanced_af", "ff_v3.ff_basic_der_af",
     "ff_v3.ff_advanced_der_af"]
  else []

/-- `FundamentalDataLoader.field_locations`: for each requested field, the list
of catalog tables whose (lower-cased) column set contains the lower-cased field. -/
def field_locations (cat : Catalog) (fields : List String) : List (String × List String) :=
  fields.map (fun field =>
    (field, cat.fundamental_tables.filter (fun table => str_lower field ∈ cat.columns table)))

/-- Per-field body of `FundamentalDataLoader._resolve_field_table_mapping`:
with fallback, scan the priority list first and fall back to the first candidate;
without fallback, keep only priority candidates and take the first (in candidate
order). -/
def resolve_one (table_priority : List String) (fallback : Bool) (tables : List String) :
    Option String :=
  if fallback then
    match table_priority.find? (fun preferred => preferred ∈ tables) with
    | some preferred => some preferred
    | none =>
      match tables with
      | t :: _ => some t
      | [] => none
  else
    match tables.filter (fun t => t ∈ table_priority) with
    | t :: _ => some t
    | [] => none

/-- Whether the per-field body emits its `warnings.warn` call: only the
`fallback=False` branch warns (when no priority candidate exists); the live
`fallback=True` branch never warns. -/
def resolve_one_warns (table_priority : List String) (fallback : Bool) (tables : List String) :
    Bool :=
  if fallback then false
  else (tables.filter (fun t => t ∈ table_priority)).isEmpty

/-- `FundamentalDataLoader._resolve_field_table_mapping`: field → chosen table
(or none). -/
def resolve_field_table_mapping (cat : Catalog) (fields : List String) (frequency : String)
    (fallback : Bool) : List (String × Option String) :=
  (field_locations cat fields).map (fun ft =>
    (ft.1, resolve_one (TABLE_PRIORITY_MAP (str_lower frequency)) fallback ft.2))

/-- The fields for which `_resolve_field_table_mapping` emits a warning. -/
def resolve_warnings (cat : Catalog) (fields : List String) (frequency : String)
    (fallback : Bool) : List String :=
  (field_locations cat fields).filterMap (fun ft =>
    if resolve_one_warns (TABLE_PRIORITY_MAP (str_lower frequency)) fallback ft.2 then some ft.1
    else none)

theorem resolve_one_singleton_false (prio : List String) (t : String) :
    resolve_one prio false [t] = if t ∈ prio then some t else none := by
  by_cases h : t ∈ prio <;> simp [resolve_one, List.filter_cons, h]

theorem resolve_one_singleton_true (prio : List String) (t : String) :
    resolve_one prio true [t] = some t := by
  induction prio with
  | nil => rfl
  | cons p ps ih =>
      by_cases hpt : p = t
      · subst hpt
        simp [resolve_one, List.find?_cons]
      · have hstep : resolve_one (p :: ps) true [t] = resolve_one ps true [t] := by
          simp [resolve_one, List.find?_cons, hpt]
        rw [hstep, ih]

/-- A catalog that lists the advanced table before the basic one (the database
enumerates tables in arbitrary order); the field exists in both. -/
def C2_cat : Catalog :=
  ⟨["ff_v3.ff_advanced_qf", "ff_v3.ff_basic_qf"], fun _ => ["eps"]⟩

/-- C2: with fallback=false the code maps the field to the first *candidate* (in
catalog enumeration order) that lies in the priority list — here the advanced
table — although the first entry of the priority list among the candidates is
the basic table, contradicting the claim (and the code's own comment "always
search in basic before advanced"). -/
theorem C2_resolver_priority_order_divergence :
    field_locations C2_cat ["eps"] =
      [("eps", ["ff_v3.ff_advanced_qf", "ff_v3.ff_basic_qf"])] ∧
    (TABLE_PRIORITY_MAP "qf").head? = some "ff_v3.ff_basic_qf" ∧
    "ff_v3.ff_basic_qf" ∈ ["ff_v3.ff_advanced_qf", "ff_v3.ff_basic_qf"] ∧
    resolve_field_table_mapping C2_cat ["eps"] "qf" false =
      [("eps", some "ff_v3.ff_advanced_qf")] := by decide

/-- A catalog with a single table, not in any priority list, containing the field. -/
def C3_cat : Catalog := ⟨["ff_v3.ff_other"], fun _ => ["eps"]⟩

/-- C3 counterexample: a field present in exactly one catalog table (a
non-priority one) resolves to None with fallback=false but to that table with
fallback=true, so resolution is not independent of the fallback flag. -/
theorem C3_fallback_dependence_cex :
    field_locations C3_cat ["eps"] = [("eps", ["ff_v3.ff_other"])] ∧
    resolve_field_table_mapping C3_cat ["eps"] "qf" false = [("eps", none)] ∧
    resolve_field_table_mapping C3_cat ["eps"] "qf" true =
      [("eps", some "ff_v3.ff_other")] ∧
    resolve_field_table_mapping C3_cat ["eps"] "qf" false ≠
      resolve_field_table_mapping C3_cat ["eps"] "qf" true := by decide

/-- C3 amended: for a field present in exactly one catalog table, resolution is
independent of the fallback flag exactly when that table belongs to the
frequency's priority list; otherwise fallback=false yields None while
fallback=true yields the table. -/
theorem C3_unique_table_amended (cat : Catalog) (fields : List String) (frequency : String)
    (f t : String) (hloc : (f, [t]) ∈ field_locations cat fields) :
    (t ∈ TABLE_PRIORITY_MAP (str_lower frequency) →
      (f, some t) ∈ resolve_field_table_mapping cat fields frequency false ∧
      (f, some t) ∈ resolve_field_table_mapping cat fields frequency true) ∧
    (t ∉ TABLE_PRIORITY_MAP (str_lower frequency) →
      (f, none) ∈ resolve_field_table_mapping cat fields frequency false ∧
      (f, some t) ∈ resolve_field_table_mapping cat fields frequency true) := by
  have hmem : ∀ fb : Bool,
      (f, resolve_one (TABLE_PRIORITY_MAP (str_lower frequency)) fb [t]) ∈
        resolve_field_table_mapping cat fields frequency fb := by
    intro fb
    unfold resolve_field_table_mapping
    exact List.mem_map_of_mem _ hloc
  constructor
  · intro hin
    refine ⟨?_, ?_⟩
    · have h := hmem false
      rwa [resolve_one_singleton_false, if_pos hin] at h
    · have h := hmem true
      rwa [resolve_one_singleton_true] at h
  · intro hout
    refine ⟨?_, ?_⟩
    · have h := hmem false
      rwa [resolve_one_singleton_false, if_neg hout] at h
    · have h := hmem true
      rwa [resolve_one_singleton_true] at h

/-- A catalog with a single priority table containing the field, used to witness
the amended unique-table claim. -/
def C3w_cat : Catalog := ⟨["ff_v3.ff_basic_qf"], fun _ => ["eps"]⟩

theorem C3_unique_table_amended_witness :
    ("ff_v3.ff_basic_qf" ∈ TABLE_PRIORITY_MAP (str_lower "qf") →
      ("eps", some "ff_v3.ff_basic_qf") ∈
        resolve_field_table_mapping C3w_cat ["eps"] "qf" false ∧
      ("eps", some "ff_v3.ff_basic_qf") ∈
        resolve_field_table_mapping C3w_cat ["eps"] "qf" true) ∧
    ("ff_v3.ff_basic_qf" ∉ TABLE_PRIORITY_MAP (str_lower "qf") →
      ("eps", none) ∈ resolve_field_table_mapping C3w_cat ["eps"] "qf" false ∧
      ("eps", some "ff_v3.ff_basic_qf") ∈
        resolve_field_table_mapping C3w_cat ["eps"] "qf" true) :=
  C3_unique_table_amended C3w_cat ["eps"] "qf" "eps" "ff_v3.ff_basic_qf" (by decide)

/-- A tabular query result as named columns of nullable cells (a polars/pandas
frame in column-major form). -/
abbrev Frame := List (String × List (Option ℚ))

/-- Number of rows of a frame. -/
def frame_height (df : Frame) : Nat :=
  match df with
  | [] => 0
  | c :: _ => c.2.length

/-- `df.with_columns(pl.lit(None).alias(mf))`: replace or append column `mf`
with an all-null column of the frame's height. -/
def with_null_column (df : Frame) (mf : String) : Frame :=
  if df.any (fun c => c.1 = mf) then
    df.map (fun c =>
      if c.1 = mf then (c.1, List.replicate (frame_height df) (none : Option ℚ)) else c)
  else df ++ [(mf, List.replicate (frame_height df) (none : Option ℚ))]

/-- `table_to_fields.setdefault(table, []).append(field)`: insertion-ordered
grouping of resolved fields by their chosen table. -/
def insert_field : List (String × List String) → String → String → List (String × List String)
  | [], table, field => [(table, [field])]
  | (t, fs) :: rest, table, field =>
    if t = table then (t, fs ++ [field]) :: rest
    else (t, fs) :: insert_field rest table field

/-- The `table_to_fields` dictionary built by `get_fundamentals`. -/
def table_to_fields (resolved : List (String × Option String)) : List (String × List String) :=
  resolved.foldl (fun acc ft =>
    match ft.2 with
    | some table => insert_field acc table ft.1
    | none => acc) []

/-- The `missing_fields` list built by `get_fundamentals`. -/
def missing_fields_of (resolved : List (String × Option String)) : List String :=
  resolved.foldl (fun acc ft =>
    match ft.2 with
    | some _ => acc
    | none => acc ++ [ft.1]) []

/-- The per-table fetch loop of `get_fundamentals`: `pd.read_sql` is not wrapped
in any try/except, so a fetch error aborts the whole call; an empty result is
skipped. -/
def fetch_tables (fetch : String → List String → Except String Frame) :
    List (String × List String) → Except String (List Frame)
  | [] => .ok []
  | (table, fields_in_table) :: rest =>
    match fetch table fields_in_table with
    | .error e => .error e
    | .ok pdf =>
      match fetch_tables fetch rest with
      | .error e => .error e
      | .ok dfs => .ok (if frame_height pdf = 0 then dfs else pdf :: dfs)

/-- `FundamentalDataLoader.get_fundamentals` with the database connection
abstracted into `fetch`: resolve fields to tables, fetch each table's frame,
then fill requested-but-unresolved fields with all-null columns. -/
def get_fundamentals (fetch : String → List String → Except String Frame)
    (cat : Catalog) (fields : List String) (frequency : String) (fallback : Bool) :
    Except String (List Frame × List (String × Option String)) :=
  if fields = [] then .ok ([], [])
  else
    let resolved := resolve_field_table_mapping cat fields frequency fallback
    let missing_fields := missing_fields_of resolved
    match fetch_tables fetch (table_to_fields resolved) with
    | .error e => .error e
    | .ok dfs =>
      if missing_fields ≠ [] then
        if dfs ≠ [] then
          .ok (dfs.map (fun df => missing_fields.foldl with_null_column df), resolved)
        else
          .ok ([missing_fields.map (fun mf => (mf, [(none : Option ℚ)]))], resolved)
      else .ok (dfs, resolved)

theorem lookup_cons_frame (k : String) (c : String × List (Option ℚ)) (rest : Frame) :
    (c :: rest).lookup k = if k = c.1 then some c.2 else rest.lookup k := by
  rcases c with ⟨a, b⟩
  by_cases hk : k = a
  · subst hk
    simp [List.lookup]
  · have hb : (k == a) = false := beq_eq_false_iff_ne.mpr hk
    simp [List.lookup, hb, hk]

theorem lookup_append_frame (l1 l2 : Frame) (k : String) :
    (l1 ++ l2).lookup k =
      match l1.lookup k with
      | some v => some v
      | none => l2.lookup k := by
  induction l1 with
  | nil => rfl
  | cons c rest ih =>
      rw [List.cons_append, lookup_cons_frame, lookup_cons_frame]
      by_cases hk : k = c.1
      · simp [hk]
      · simp [hk, ih]

theorem lookup_eq_none_of_not_any (df : Frame) (k : String)
    (h : df.any (fun c => c.1 = k) = false) : df.lookup k = none := by
  induction df with
  | nil => rfl
  | cons c rest ih =>
      simp only [List.any_cons, Bool.or_eq_false_iff, decide_eq_false_iff_not] at h
      rw [lookup_cons_frame, if_neg (fun he => h.1 he.symm)]
      exact ih h.2

theorem lookup_map_set (df : Frame) (mf : String) (v : List (Option ℚ))
    (h : df.any (fun c => c.1 = mf) = true) :
    (df.map (fun c => if c.1 = mf then (c.1, v) else c)).lookup mf = some v := by
  induction df with
  | nil => simp at h
  | cons c rest ih =>
      rw [List.map_cons]
      by_cases hc : c.1 = mf
      · rw [if_pos hc, lookup_cons_frame, if_pos hc.symm]
      · have h' : rest.any (fun c => c.1 = mf) = true := by
          simpa [List.any_cons, hc] using h
        rw [if_neg hc, lookup_cons_frame, if_neg (fun he => hc he.symm)]
        exact ih h'

theorem lookup_map_set_other (df : Frame) (mf g : String) (v : List (Option ℚ))
    (hne : g ≠ mf) :
    (df.map (fun c => if c.1 = mf then (c.1, v) else c)).lookup g = df.lookup g := by
  induction df with
  | nil => rfl
  | cons c rest ih =>
      rw [List.map_cons]
      by_cases hc : c.1 = mf
      · have hg : g ≠ c.1 := fun he => hne (he ▸ hc)
        rw [if_pos hc, lookup_cons_frame g (c.1, v) _, lookup_cons_frame g c rest]
        rw [if_neg hg, if_neg hg]
        exact ih
      · rw [if_neg hc, lookup_cons_frame g c _, lookup_cons_frame g c rest]
        by_cases hg : g = c.1
        · rw [if_pos hg, if_pos hg]
        · rw [if_neg hg, if_neg hg]
          exact ih

theorem lookup_with_null_column_self (df : Frame) (mf : String) :
    (with_null_column df mf).lookup mf =
      some (List.replicate (frame_height df) (none : Option ℚ)) := by
  unfold with_null_column
  by_cases h : df.any (fun c => c.1 = mf)
  · rw [if_pos h]
    exact lookup_map_set df mf _ h
  · rw [if_neg h]
    rw [lookup_append_frame,
      lookup_eq_none_of_not_any df mf (Bool.of_not_eq_true h)]
    rw [lookup_cons_frame, if_pos rfl]

theorem lookup_with_null_column_other (df : Frame) (mf g : String) (hne : g ≠ mf) :
    (with_null_column df mf).lookup g = df.lookup g := by
  unfold with_null_column
  by_cases h : df.any (fun c => c.1 = mf)
  · rw [if_pos h]
    exact lookup_map_set_other df mf g _ hne
  · rw [if_neg h]
    rw [lookup_append_frame]
    cases hdf : df.lookup g with
    | some v => rfl
    | none =>
        rw [lookup_cons_frame, if_neg hne]
        rfl

/-- The column `f` exists in the frame and is entirely null. -/
def all_null_column (df : Frame) (f : String) : Prop :=
  ∃ vs, df.lookup f = some vs ∧ ∀ v ∈ vs, v = none

theorem all_null_with_null_column_self (df : Frame) (f : String) :
    all_null_column (with_null_column df f) f :=
  ⟨List.replicate (frame_height df) none, lookup_with_null_column_self df f,
    fun _ hv => List.eq_of_mem_replicate hv⟩

theorem all_null_preserved (df : Frame) (f g : String) (h : all_null_column df f) :
    all_null_column (with_null_column df g) f := by
  by_cases hg : g = f
  · subst hg
    exact all_null_with_null_column_self df g
  · obtain ⟨vs, hvs, hall⟩ := h
    exact ⟨vs, by rw [lookup_with_null_column_other df g f (Ne.symm hg)]; exact hvs, hall⟩

theorem all_null_foldl (ms : List String) :
    ∀ (df : Frame) (f : String), (f ∈ ms ∨ all_null_column df f) →
      all_null_column (ms.foldl with_null_column df) f := by
  induction ms with
  | nil =>
      intro df f h
      rcases h with h | h
      · exact absurd h (List.not_mem_nil f)
      · exact h
  | cons m rest ih =>
      intro df f h
      rw [List.foldl_cons]
      rcases h with h | h
      · rcases List.mem_cons.mp h with hm | hm
        · exact ih _ f (Or.inr (hm ▸ all_null_with_null_column_self df m))
        · exact ih _ f (Or.inl hm)
      · exact ih _ f (Or.inr (all_null_preserved df f m h))

theorem lookup_map_null_of_mem (ms : List String) (f : String) (h : f ∈ ms) :
    (ms.map (fun mf => (mf, [(none : Option ℚ)]))).lookup f = some [none] := by
  induction ms with
  | nil => exact absurd h (List.not_mem_nil f)
  | cons m rest ih =>
      rw [List.map_cons, lookup_cons_frame]
      by_cases hm : f = m
      · rw [if_pos hm]
      · rw [if_neg hm]
        exact ih ((List.mem_cons.mp h).resolve_left hm)

theorem missing_fields_of_eq (resolved : List (String × Option String)) :
    missing_fields_of resolved =
      resolved.filterMap (fun ft =>
        match ft.2 with
        | some _ => none
        | none => some ft.1) := by
  unfold missing_fields_of
  suffices hgen : ∀ (l : List (String × Option String)) (acc : List String),
      l.foldl (fun acc ft =>
        match ft.2 with
        | some _ => acc
        | none => acc ++ [ft.1]) acc =
      acc ++ l.filterMap (fun ft =>
        match ft.2 with
        | some _ => none
        | none => some ft.1) by
    simpa using hgen resolved []
  intro l
  induction l with
  | nil => intro acc; simp
  | cons ft rest ih =>
      intro acc
      cases hft : ft.2 with
      | some t => simp [List.foldl_cons, List.filterMap_cons, hft, ih]
      | none => simp [List.foldl_cons, List.filterMap_cons, hft, ih]

theorem resolve_one_nil (prio : List String) (fb : Bool) : resolve_one prio fb [] = none := by
  cases fb with
  | false => rfl
  | true =>
      induction prio with
      | nil => rfl
      | cons p ps ih =>
          have hstep : resolve_one (p :: ps) true [] = resolve_one ps true [] := by
            simp [resolve_one, List.find?_cons]
          rw [hstep, ih]

theorem mem_missing_fields_of (resolved : List (String × Option String)) (f : String)
    (h : (f, none) ∈ resolved) : f ∈ missing_fields_of resolved := by
  rw [missing_fields_of_eq]
  exact List.mem_filterMap.mpr ⟨(f, none), h, rfl⟩

/-- A catalog in which the requested field exists in no table at all. -/
def C7_cat : Catalog := ⟨["ff_v3.ff_basic_qf"], fun _ => []⟩

/-- C7 counterexample: a field found in no table is mapped to None under both
flags, but the warning is only emitted with fallback=false; with fallback=true
the live code maps the field to None silently, with no warning. -/
theorem C7_no_warning_with_fallback_cex :
    resolve_field_table_mapping C7_cat ["eps"] "qf" true = [("eps", none)] ∧
    resolve_warnings C7_cat ["eps"] "qf" true = [] ∧
    resolve_warnings C7_cat ["eps"] "qf" false = ["eps"] := by decide

/-- C7 amended: a requested field with no backing table is mapped to None under
either flag and never raises; the non-fatal warning is emitted only when
fallback=false; and every frame of a successful `get_fundamentals` result
carries a column for the field that is entirely null. -/
theorem C7_unresolved_field_amended
    (fetch : String → List String → Except String Frame)
    (cat : Catalog) (fields : List String) (frequency : String) (fallback : Bool)
    (f : String) (hloc : (f, ([] : List String)) ∈ field_locations cat fields) :
    ((f, none) ∈ resolve_field_table_mapping cat fields frequency fallback) ∧
    (fallback = false → f ∈ resolve_warnings cat fields frequency fallback) ∧
    (∀ res, get_fundamentals fetch cat fields frequency fallback = Except.ok res →
      ∀ df ∈ res.1, all_null_column df f) := by
  have hres : (f, none) ∈ resolve_field_table_mapping cat fields frequency fallback := by
    unfold resolve_field_table_mapping
    have hmap := List.mem_map_of_mem
      (fun ft : String × List String =>
        (ft.1, resolve_one (TABLE_PRIORITY_MAP (str_lower frequency)) fallback ft.2)) hloc
    simp only at hmap
    rwa [resolve_one_nil] at hmap
  refine ⟨hres, ?_, ?_⟩
  · intro hfb
    subst hfb
    unfold resolve_warnings
    refine List.mem_filterMap.mpr ⟨(f, []), hloc, ?_⟩
    rw [if_pos]
    rfl
  · intro res hok df hdf
    have hfields : fields ≠ [] := by
      intro hnil
      rw [hnil] at hloc
      simp [field_locations] at hloc
    unfold get_fundamentals at hok
    rw [if_neg hfields] at hok
    have hmiss : f ∈ missing_fields_of
        (resolve_field_table_mapping cat fields frequency fallback) :=
      mem_missing_fields_of _ f hres
    have hmissne : missing_fields_of
        (resolve_field_table_mapping cat fields frequency fallback) ≠ [] := by
      intro hnil
      rw [hnil] at hmiss
      exact (List.not_mem_nil f) hmiss
    simp only at hok
    cases hft : fetch_tables fetch
        (table_to_fields (resolve_field_table_mapping cat fields frequency fallback)) with
    | error e =>
        rw [hft] at hok
        exact absurd hok (by simp)
    | ok dfs =>
        rw [hft] at hok
        simp only at hok
        rw [if_pos hmissne] at hok
        by_cases hdfs : dfs ≠ []
        · rw [if_pos hdfs] at hok
          injection hok with hpair
          rw [← hpair] at hdf
          simp only [List.mem_map] at hdf
          obtain ⟨df0, _, hdf0⟩ := hdf
          rw [← hdf0]
          exact all_null_foldl _ df0 f (Or.inl hmiss)
        · rw [if_neg hdfs] at hok
          injection hok with hpair
          rw [← hpair] at hdf
          simp only [List.mem_singleton] at hdf
          rw [hdf]
          exact ⟨[none], lookup_map_null_of_mem _ f hmiss, by simp⟩

/-- A fetch stub that always succeeds with an empty frame. -/
def C7_fetch : String → List String → Except String Frame := fun _ _ => Except.ok []

theorem C7_unresolved_field_amended_witness :
    (("eps", none) ∈ resolve_field_table_mapping C7_cat ["eps"] "qf" false) ∧
    (false = false → "eps" ∈ resolve_warnings C7_cat ["eps"] "qf" false) ∧
    (∀ res, get_fundamentals C7_fetch C7_cat ["eps"] "qf" false = Except.ok res →
      ∀ df ∈ res.1, all_null_column df "eps") :=
  C7_unresolved_field_amended C7_fetch C7_cat ["eps"] "qf" false "eps" (by decide)

end Fundamentals

namespace Estimates

/-- One row of an estimates table (`SELECT *` restricted to the columns the
loader touches): natural key `(fsym_id, fe_fp_end, currency)`, item name and
nullable value. -/
structure ERow where
  fsym_id : String
  fe_fp_end : Int
  currency : String
  fe_item : String
  value : Option ℚ
deriving DecidableEq, Repr

/-- `tables_to_try` of `EstimatesLoader.get_estimates`: advanced then basic. -/
def tables_to_try (table_type frequency : String) : List String :=
  ["fe_v4.fe_advanced_" ++ table_type ++ "_" ++ frequency,
   "fe_v4.fe_basic_" ++ table_type ++ "_" ++ frequency]

/-- The collection loop of `get_estimates`: each fetch is guarded by
`try/except Exception: continue`, so a failing fetch is skipped exactly like an
empty one; found items accumulate (set semantics) and stop the loop early when
nothing is missing. -/
def collect_tables (fetch : String → List String → Except String (List ERow))
    (fe_items : List String) :
    List String → List (List ERow) → List String → List (List ERow) × List String
  | [], collected, found_items => (collected, found_items)
  | table :: rest, collected, found_items =>
    let missing_items := fe_items.filter (fun item => item ∉ found_items)
    if missing_items = [] then (collected, found_items)
    else
      match fetch table missing_items with
      | .error _ => collect_tables fetch fe_items rest collected found_items
      | .ok df =>
        if df = [] then collect_tables fetch fe_items rest collected found_items
        else
          collect_tables fetch fe_items rest (collected ++ [df])
            (found_items ++
              ((df.map (·.fe_item)).dedup.filter (fun i => i ∉ found_items)))

/-- The natural keys `(fsym_id, fe_fp_end, currency)` of a list of rows. -/
def fe_keys (df_all : List ERow) : List (String × Int × String) :=
  df_all.map (fun r => (r.fsym_id, r.fe_fp_end, r.currency))

/-- A synthetic null row for a missing item at a given key. -/
def null_row (item : String) (k : String × Int × String) : ERow :=
  ⟨k.1, k.2.1, k.2.2, item, none⟩

/-- The null-filling block of `get_estimates` (lines 56–64): for each requested
item not found, append one null row per distinct key of the collected data. -/
def fill_missing_items (fe_items found_items : List String) (df_all : List ERow) :
    List ERow :=
  let missing_items := fe_items.dedup.filter (fun item => item ∉ found_items)
  let base := (fe_keys df_all).dedup
  missing_items.foldl (fun acc item => acc ++ base.map (null_row item)) df_all

/-- `EstimatesLoader.get_estimates` with the connection abstracted into `fetch`:
collect the two candidate tables, null-fill requested-but-absent items, and
attach the reverse-mapped ISIN to each row. -/
def get_estimates (fetch : String → List String → Except String (List ERow))
    (isin_map : List (String × String)) (table_type : String) (fe_items : List String)
    (frequency : String) : List (ERow × Option String) :=
  let fsym_ids := isin_map.map (·.2)
  if fsym_ids = [] then []
  else
    let cf := collect_tables fetch fe_items (tables_to_try table_type frequency) [] []
    if cf.1 = [] then []
    else
      let df_all := fill_missing_items fe_items cf.2 cf.1.flatten
      let reverse_map := isin_map.map (fun p => (p.2, p.1))
      df_all.map (fun r => (r, reverse_map.lookup r.fsym_id))

/-- Turning every fetch failure into a successful empty fetch. -/
def errors_as_empty (fetch : String → List String → Except String (List ERow)) :
    String → List String → Except String (List ERow) :=
  fun table items =>
    match fetch table items with
    | .error _ => .ok []
    | .ok df => .ok df

theorem collect_tables_errors_as_empty
    (fetch : String → List String → Except String (List ERow)) (fe_items : List String) :
    ∀ (tables : List String) (collected : List (List ERow)) (found_items : List String),
      collect_tables (errors_as_empty fetch) fe_items tables collected found_items =
        collect_tables fetch fe_items tables collected found_items := by
  intro tables
  induction tables with
  | nil => intro collected found_items; rfl
  | cons table rest ih =>
      intro collected found_items
      unfold collect_tables
      by_cases hmiss : fe_items.filter (fun item => item ∉ found_items) = []
      · rw [if_pos hmiss, if_pos hmiss]
      · rw [if_neg hmiss, if_neg hmiss]
        cases hf : fetch table (fe_items.filter (fun item => item ∉ found_items)) with
        | error e =>
            have hge : errors_as_empty fetch table
                (fe_items.filter (fun item => item ∉ found_items)) = .ok [] := by
              unfold errors_as_empty
              rw [hf]
            rw [hge]
            simp only [if_pos]
            exact ih collected found_items
        | ok df =>
            have hge : errors_as_empty fetch table
                (fe_items.filter (fun item => item ∉ found_items)) = .ok df := by
              unfold errors_as_empty
              rw [hf]
            rw [hge]
            simp only
            by_cases hdf : df = []
            · rw [if_pos hdf, if_pos hdf]
              exact ih collected found_items
            · rw [if_neg hdf, if_neg hdf]
              exact ih _ _

theorem fill_missing_items_eq (fe_items found_items : List String) (df_all : List ERow) :
    fill_missing_items fe_items found_items df_all =
      df_all ++
        (fe_items.dedup.filter (fun item => item ∉ found_items)).flatMap
          (fun item => (fe_keys df_all).dedup.map (null_row item)) := by
  unfold fill_missing_items
  suffices hgen : ∀ (ms : List String) (acc : List ERow),
      ms.foldl (fun acc item => acc ++ (fe_keys df_all).dedup.map (null_row item)) acc =
        acc ++ ms.flatMap (fun item => (fe_keys df_all).dedup.map (null_row item)) by
    simpa using hgen (fe_items.dedup.filter (fun item => item ∉ found_items)) df_all
  intro ms
  induction ms with
  | nil => intro acc; simp
  | cons a rest ih =>
      intro acc
      simp [List.foldl_cons, List.flatMap_cons, ih]

/-- Rows actually fetched in the two-found-items counterexample: `EPS` is present
only at key `(F1, 1, USD)` and `FFO` only at `(F2, 2, USD)`. -/
def C9_df : List ERow :=
  [⟨"F1", 1, "USD", "EPS", some 1⟩, ⟨"F2", 2, "USD", "FFO", some 2⟩]

/-- C9 counterexample: when every requested item was found somewhere, no null
rows are appended at all, so a found item (`EPS`) does not appear for every key
present in the result — the key `(F2, 2, USD)` is in the result but carries no
`EPS` row. -/
theorem C9_symmetry_cex :
    fill_missing_items ["EPS", "FFO"] ["EPS", "FFO"] C9_df = C9_df ∧
    ("F2", 2, "USD") ∈ fe_keys (fill_missing_items ["EPS", "FFO"] ["EPS", "FFO"] C9_df) ∧
    "EPS" ∈ ["EPS", "FFO"] ∧
    ¬ ∃ r ∈ fill_missing_items ["EPS", "FFO"] ["EPS", "FFO"] C9_df,
        r.fe_item = "EPS" ∧ (r.fsym_id, r.fe_fp_end, r.currency) = ("F2", 2, "USD") := by
  decide

/-- C9 amended: every requested item that is absent from the collected data is
filled with synthetic null rows at every distinct key of the collected data, so
every *absent* requested item appears, with a null value, at every key present
in the filled result (items that were found keep only the keys the source
supplied). -/
theorem C9_missing_item_fill_amended
    (fe_items found_items : List String) (df_all : List ERow) (m : String)
    (hm : m ∈ fe_items) (hfound : m ∉ found_items)
    (k : String × Int × String)
    (hk : k ∈ fe_keys (fill_missing_items fe_items found_items df_all)) :
    ∃ r ∈ fill_missing_items fe_items found_items df_all,
      r.fe_item = m ∧ r.value = none ∧ (r.fsym_id, r.fe_fp_end, r.currency) = k := by
  have hm' : m ∈ fe_items.dedup.filter (fun item => item ∉ found_items) :=
    List.mem_filter.mpr ⟨List.mem_dedup.mpr hm, by simpa using hfound⟩
  have hkdf : k ∈ fe_keys df_all := by
    rw [fill_missing_items_eq] at hk
    unfold fe_keys at hk
    rw [List.map_append] at hk
    rcases List.mem_append.mp hk with hkl | hkr
    · exact hkl
    · simp only [List.map_flatMap, List.mem_flatMap, List.map_map, List.mem_map] at hkr
      obtain ⟨item, _, k0, hk0, hkeq⟩ := hkr
      have : k = k0 := by
        rw [← hkeq]
        rfl
      rw [this]
      exact List.mem_dedup.mp hk0
  refine ⟨null_row m k, ?_, rfl, rfl, rfl⟩
  rw [fill_missing_items_eq]
  refine List.mem_append_right _ (List.mem_flatMap.mpr ⟨m, hm', ?_⟩)
  exact List.mem_map_of_mem (null_row m) (List.mem_dedup.mpr hkdf)

/-- Collected data used to witness the amended fill claim: one found item at one
key; `BPS` is requested but absent. -/
def C9_wdf : List ERow := [⟨"F1", 1, "USD", "EPS", some 1⟩]

theorem C9_missing_item_fill_amended_witness :
    ∃ r ∈ fill_missing_items ["EPS", "BPS"] ["EPS"] C9_wdf,
      r.fe_item = "BPS" ∧ r.value = none ∧
      (r.fsym_id, r.fe_fp_end, r.currency) = ("F1", 1, "USD") :=
  C9_missing_item_fill_amended ["EPS", "BPS"] ["EPS"] C9_wdf "BPS"
    (by decide) (by decide) ("F1", 1, "USD") (by decide)

end Estimates

/-- A catalog with one priority table containing the requested field, used for
the fundamentals half of the fetch-failure claim. -/
def C6_cat : Fundamentals.Catalog := ⟨["ff_v3.ff_basic_qf"], fun _ => ["eps"]⟩

/-- C6 counterexample: in `get_fundamentals` the per-table fetch is not guarded:
an erroring fetch makes the whole call return the error to the caller, which is
not the result an empty fetch produces. -/
theorem C6_fundamentals_fetch_error_propagates_cex :
    Fundamentals.get_fundamentals (fun _ _ => Except.error "db down")
        C6_cat ["eps"] "qf" false =
      Except.error "db down" ∧
    Fundamentals.get_fundamentals (fun _ _ => Except.ok []) C6_cat ["eps"] "qf" false =
      Except.ok ([], [("eps", some "ff_v3.ff_basic_qf")]) ∧
    (Except.error "db down" :
        Except String (List Fundamentals.Frame × List (String × Option String))) ≠
      Except.ok ([], [("eps", some "ff_v3.ff_basic_qf")]) :=
  ⟨rfl, rfl, by simp⟩

/-- C6 amended: the estimates loader catches every per-table fetch failure and
treats it exactly like an empty result (the whole loader is invariant under
replacing failures by empty fetches); the fundamentals loader does not catch —
a fetch error propagates to its caller. -/
theorem C6_fetch_failure_amended :
    (∀ (fetch : String → List String → Except String (List Estimates.ERow))
        (isin_map : List (String × String)) (table_type : String)
        (fe_items : List String) (frequency : String),
      Estimates.get_estimates (Estimates.errors_as_empty fetch) isin_map table_type
          fe_items frequency =
        Estimates.get_estimates fetch isin_map table_type fe_items frequency) ∧
    (∀ e : String,
      Fundamentals.get_fundamentals (fun _ _ => Except.error e)
          C6_cat ["eps"] "qf" false =
        Except.error e) := by
  constructor
  · intro fetch isin_map table_type fe_items frequency
    unfold Estimates.get_estimates
    rw [Estimates.collect_tables_errors_as_empty]
  · intro e
    rfl

namespace Metadata

/-- A cell value of a joined table: date, text or number. -/
inductive Val where
  | i : Int → Val
  | s : String → Val
  | q : ℚ → Val
deriving DecidableEq, Repr

/-- One row of a frame, as named nullable cells. -/
abbrev Row := List (String × Option Val)

/-- A frame with an explicit column list (needed to null-fill unmatched joins). -/
structure DF where
  cols : List String
  rows : List Row

/-- The value of column `c` in row `r` (null when the column is absent). -/
def get_col (r : Row) (c : String) : Option Val := (r.lookup c).join

theorem lookup_cons_row (k : String) (c : String × Option Val) (rest : Row) :
    (c :: rest).lookup k = if k = c.1 then some c.2 else rest.lookup k := by
  rcases c with ⟨a, b⟩
  by_cases hk : k = a
  · subst hk
    simp [List.lookup]
  · have hb : (k == a) = false := beq_eq_false_iff_ne.mpr hk
    simp [List.lookup, hb, hk]

theorem lookup_append_row (r ext : Row) (c : String) (o : Option Val)
    (h : r.lookup c = some o) : (r ++ ext).lookup c = some o := by
  induction r with
  | nil => simp [List.lookup] at h
  | cons p rest ih =>
      rw [lookup_cons_row] at h
      rw [List.cons_append, lookup_cons_row]
      by_cases hk : c = p.1
      · rw [if_pos hk] at h
        rw [if_pos hk]
        exact h
      · rw [if_neg hk] at h
        rw [if_neg hk]
        exact ih h

/-- `result.join(df, left_on=.., right_on=.., how='left')`: every left row is
kept; with no match the right value columns are null, otherwise one output row
per matching right row. -/
def left_join (L R : DF) (lkeys rkeys : List String) : DF :=
  let right_val_cols := R.cols.filter (fun c => c ∉ rkeys)
  { cols := L.cols ++ right_val_cols,
    rows := L.rows.flatMap (fun lr =>
      let ms := R.rows.filter (fun rr =>
        (lkeys.zip rkeys).all (fun kk => get_col lr kk.1 = get_col rr kk.2))
      match ms with
      | [] => [lr ++ right_val_cols.map (fun c => (c, (none : Option Val)))]
      | _ => ms.map (fun rr => lr ++ right_val_cols.map (fun c => (c, get_col rr c)))) }

/-- One iteration of the `for df in dfs` loop of `MetaDataJoiner.join_on_calendar`:
choose the right date column, join also on ISIN when both sides carry one, drop
duplicated non-key columns from the incoming frame, then left-join. -/
def join_step (date_col : String) (result df : DF) : DF :=
  let dc := if "price_date" ∈ df.cols then "price_date" else "date"
  let both_isin := "ISIN" ∈ result.cols ∧ "ISIN" ∈ df.cols
  let lkeys := if both_isin then [date_col, "ISIN"] else [date_col]
  let rkeys := if both_isin then [dc, "ISIN"] else [dc]
  let common := result.cols.filter (fun c => c ∈ df.cols)
  let cols_to_drop := common.filter (fun c => c ∉ rkeys)
  let df' : DF := ⟨df.cols.filter (fun c => c ∉ cols_to_drop),
                   df.rows.map (fun r => r.filter (fun p => p.1 ∉ cols_to_drop))⟩
  left_join result df' lkeys rkeys

/-- `MetaDataJoiner.join_on_calendar`: fold the input frames onto the calendar
spine by successive left joins. -/
def join_on_calendar (cal_dates : List Val) (date_col : String) (dfs : List DF) : DF :=
  dfs.foldl (join_step date_col)
    ⟨[date_col], cal_dates.map (fun d => [(date_col, some d)])⟩

theorem left_join_preserves_left_rows (L R : DF) (lkeys rkeys : List String)
    (lr : Row) (hlr : lr ∈ L.rows) :
    ∃ r ∈ (left_join L R lkeys rkeys).rows, ∃ ext, r = lr ++ ext := by
  unfold left_join
  simp only [List.mem_flatMap]
  cases hms : R.rows.filter (fun rr =>
      (lkeys.zip rkeys).all (fun kk => get_col lr kk.1 = get_col rr kk.2)) with
  | nil =>
      refine ⟨lr ++ (R.cols.filter (fun c => c ∉ rkeys)).map
          (fun c => (c, (none : Option Val))), ⟨lr, hlr, ?_⟩, _, rfl⟩
      rw [hms]
      exact List.mem_singleton.mpr rfl
  | cons rr ms' =>
      refine ⟨lr ++ (R.cols.filter (fun c => c ∉ rkeys)).map
          (fun c => (c, get_col rr c)), ⟨lr, hlr, ?_⟩, _, rfl⟩
      rw [hms]
      exact List.mem_map_of_mem _ (List.mem_cons_self rr ms')

theorem join_step_preserves (date_col : String) (cal_dates : List Val)
    (result df : DF)
    (hinv : ∀ d ∈ cal_dates, ∃ r ∈ result.rows, r.lookup date_col = some (some d)) :
    ∀ d ∈ cal_dates, ∃ r ∈ (join_step date_col result df).rows,
      r.lookup date_col = some (some d) := by
  intro d hd
  obtain ⟨r, hr, hrd⟩ := hinv d hd
  unfold join_step
  obtain ⟨r', hr', ext, hext⟩ := left_join_preserves_left_rows result _ _ _ r hr
  exact ⟨r', hr', by rw [hext]; exact lookup_append_row r ext date_col (some d) hrd⟩

theorem join_foldl_preserves (date_col : String) (cal_dates : List Val) :
    ∀ (dfs : List DF) (acc : DF),
      (∀ d ∈ cal_dates, ∃ r ∈ acc.rows, r.lookup date_col = some (some d)) →
      ∀ d ∈ cal_dates, ∃ r ∈ (dfs.foldl (join_step date_col) acc).rows,
        r.lookup date_col = some (some d) := by
  intro dfs
  induction dfs with
  | nil => intro acc hinv; exact hinv
  | cons df rest ih =>
      intro acc hinv
      rw [List.foldl_cons]
      exact ih _ (join_step_preserves date_col cal_dates acc df hinv)

/-- C8: calendar alignment keeps every base-calendar row — for every input frame
list (all-empty included), every calendar date appears in a row of the joined
result. -/
theorem C8_join_on_calendar_preserves_calendar (cal_dates : List Val)
    (date_col : String) (dfs : List DF) (d : Val) (hd : d ∈ cal_dates) :
    ∃ r ∈ (join_on_calendar cal_dates date_col dfs).rows,
      get_col r date_col = some d := by
  unfold join_on_calendar
  have hbase : ∀ d ∈ cal_dates,
      ∃ r ∈ (DF.mk [date_col] (cal_dates.map (fun d => [(date_col, some d)]))).rows,
        r.lookup date_col = some (some d) := by
    intro d hd
    refine ⟨[(date_col, some d)], List.mem_map_of_mem _ hd, ?_⟩
    rw [lookup_cons_row, if_pos rfl]
  obtain ⟨r, hr, hrd⟩ := join_foldl_preserves date_col cal_dates dfs _ hbase d hd
  exact ⟨r, hr, by unfold get_col; rw [hrd]; rfl⟩

theorem C8_join_on_calendar_preserves_calendar_witness :
    ∃ r ∈ (join_on_calendar [Val.i 0, Val.i 1] "ref_date"
        [⟨["date", "ISIN", "price"], []⟩]).rows,
      get_col r "ref_date" = some (Val.i 0) :=
  C8_join_on_calendar_preserves_calendar [Val.i 0, Val.i 1] "ref_date"
    [⟨["date", "ISIN", "price"], []⟩] (Val.i 0) (by decide)

end Metadata

namespace Output

/-- `PanelOutput`: a keyed container of frames. -/
structure PanelOutput where
  frames : List (String × Metadata.DF)

/-- `pl.DataFrame()`: the empty frame. -/
def empty_df : Metadata.DF := ⟨[], []⟩

/-- `PanelOutput.get`: `self.frames.get(key, pl.DataFrame())`. -/
def PanelOutput.get (po : PanelOutput) (key : String) : Metadata.DF :=
  (po.frames.lookup key).getD empty_df

theorem lookup_none_of_key_not_mem (l : List (String × Metadata.DF)) (key : String)
    (h : key ∉ l.map Prod.fst) : l.lookup key = none := by
  induction l with
  | nil => rfl
  | cons c rest ih =>
      simp only [List.map_cons, List.mem_cons, not_or] at h
      rcases c with ⟨a, b⟩
      have hb : (key == a) = false := beq_eq_false_iff_ne.mpr h.1
      simp only [List.lookup, hb]
      exact ih h.2

/-- C10: looking up a key that was never loaded returns the empty frame —
`PanelOutput.get` is total and never raises. -/
theorem C10_panel_get_missing_key (po : PanelOutput) (key : String)
    (h : key ∉ po.frames.map Prod.fst) :
    po.get key = empty_df := by
  unfold PanelOutput.get
  rw [lookup_none_of_key_not_mem po.frames key h]
  rfl

theorem C10_panel_get_missing_key_witness :
    (PanelOutput.mk [("prices", Metadata.DF.mk ["date"] [])]).get "fundamentals" =
      empty_df :=
  C10_panel_get_missing_key (PanelOutput.mk [("prices", Metadata.DF.mk ["date"] [])])
    "fundamentals" (by decide)

end Output
